import Mathlib

/-!
Shallow embedding of the scheduling core of `src/algo.py`
(Green Energy-Efficient Scheduler).

The algorithmic core is `SchedulerUI.schedule_tasks` (lines 178-210): an
earliest-deadline-first simulation loop over a single variable-speed
processor, with dependency gating, clamped frequency selection, quantized
time advance while busy, event jumps while idle, and an energy accumulator.
Python floats are modelled as exact rationals; the hard-coded parameters
`f_min = 1.0`, `f_max = 4.0`, `alpha = 2.0`, `dt = 1.0` and the loop bound
`while t < 1000` are transcribed below.  The `while` loop is modelled with
explicit fuel; the fuel is proved sufficient (the loop really halts) in the
termination theorem further down.
-/

namespace GreenSched

/-- Parameter `f_min = 1.0` from line 184 of `schedule_tasks`. -/
def f_min : ℚ := 1

/-- Parameter `f_max = 4.0` from line 184 of `schedule_tasks`. -/
def f_max : ℚ := 4

/-- Parameter `alpha = 2.0` from line 184.  The source computes
`f_current ** 2.0` with a nonnegative base, which is exactly squaring, so
the exponent is modelled as the natural number 2. -/
def alpha : ℕ := 2

/-- Parameter `dt = 1.0` from line 184. -/
def dt : ℚ := 1

/-- Loop bound `while t < 1000` from line 188. -/
def horizon : ℚ := 1000

/-- Completion tolerance `1e-6` from lines 190 and 209. -/
def eps : ℚ := 1 / 1000000

/-- Task record (class `Task`, lines 10-16): identity, release time,
deadline, remaining workload and the ids of its dependencies. -/
structure Task where
  task_id : ℕ
  release_time : ℚ
  deadline : ℚ
  workload : ℚ
  dependencies : List ℕ

/-- Schedule record (class `ScheduleEntry`, lines 19-24). -/
structure ScheduleEntry where
  task_id : ℕ
  start_time : ℚ
  end_time : ℚ
  frequency : ℚ

/-- State of one run of the loop in `schedule_tasks`: the clock `t`, the
energy accumulator `E`, the schedule built so far, and the working copy
`tasks_copy` of the task list (the loop mutates workloads on a deep copy,
line 186). -/
structure SimState where
  t : ℚ
  E : ℚ
  schedule : List ScheduleEntry
  tasks : List Task

/-- Readiness test from lines 189-190: released, work remaining, and every
task of the list whose id is among the dependencies is finished to within
`eps`. -/
def isReady (tasks : List Task) (t : ℚ) (task : Task) : Bool :=
  decide (task.release_time ≤ t) && decide (0 < task.workload) &&
    tasks.all fun dep => !(task.dependencies.contains dep.task_id) || decide (dep.workload ≤ eps)

/-- The ready tasks in list order, each paired with its position in
`tasks`.  The Python comprehension yields the mutable task objects
themselves; the position stands for object identity so that the in-place
workload update below hits the same element. -/
def readyPairs (tasks : List Task) (t : ℚ) : List (ℕ × Task) :=
  tasks.enum.filter fun p => isReady tasks t p.2

/-- First-minimum scan by key `g` starting from `a`: the accumulator is
replaced only when the key strictly decreases. -/
def pickFold {α : Type} (g : α → ℚ) (a : α) (xs : List α) : α :=
  xs.foldl (fun best p => if g p < g best then p else best) a

/-- Python's builtin `min(ready_tasks, key=deadline)` (line 192): a scan
that keeps the current minimum and replaces it only on a strictly smaller
key, hence returns the first minimum in list order. -/
def pickMin (l : List (ℕ × Task)) : Option (ℕ × Task) :=
  match l with
  | [] => none
  | x :: xs => some (pickFold (fun p => p.2.deadline) x xs)

/-- Frequency selection with clamping, line 194 of `schedule_tasks`. -/
def f_current (workload slack : ℚ) : ℚ :=
  if 0 < slack then min (max (workload / slack) f_min) f_max else f_max

/-- Local `slack = selected_task.deadline - t` of line 193. -/
def slack (s : SimState) (sel : Task) : ℚ := sel.deadline - s.t

/-- Local `f_current` of line 194 for the selected task. -/
def fcur (s : SimState) (sel : Task) : ℚ := f_current sel.workload (slack s sel)

/-- Local `actual_dt` of line 196: a full quantum unless the capacity
`f_current * dt` overshoots the remaining workload, in which case the
slice ends when the task finishes. -/
def actual_dt (s : SimState) (sel : Task) : ℚ :=
  if fcur s sel * dt ≤ sel.workload then dt else sel.workload / fcur s sel

/-- Local `work_done` after line 197: `min(f_current * dt, workload)`. -/
def work_done (s : SimState) (sel : Task) : ℚ := min (fcur s sel * dt) sel.workload

/-- One execution slice (lines 193-201) for the selected task `sel`
sitting at position `i` of the task list: subtract the work done, add the
energy of the slice, append the schedule entry and advance the clock. -/
def execStep (s : SimState) (i : ℕ) (sel : Task) : SimState :=
  { t := s.t + actual_dt s sel
    E := s.E + fcur s sel ^ alpha * actual_dt s sel
    schedule := s.schedule ++ [⟨sel.task_id, s.t, s.t + actual_dt s sel, fcur s sel⟩]
    tasks := s.tasks.set i { sel with workload := sel.workload - work_done s sel } }

/-- Formulas of spec section 4.2 for one execution slice, written from the
spec's words (not from the code), to be compared with `execStep`: the
frequency is `workload / slack` clamped to the band when slack is
positive, `f_max` otherwise; the duration is a full quantum `dt` unless
`frequency * dt` overshoots the workload, in which case it is
`workload / frequency`; the work subtracted at position `i` is
`min(frequency * dt, workload)`; the energy added is
`frequency ^ alpha * duration`; and the recorded slice covers
`[t, t + duration]` at that frequency. -/
def SliceSpec (s : SimState) (i : ℕ) (sel : Task) (s' : SimState) : Prop :=
  ∃ f dur : ℚ,
    (0 < sel.deadline - s.t →
      f = min (max (sel.workload / (sel.deadline - s.t)) f_min) f_max) ∧
    (sel.deadline - s.t ≤ 0 → f = f_max) ∧
    dur = (if f * dt ≤ sel.workload then dt else sel.workload / f) ∧
    s'.t = s.t + dur ∧
    s'.E = s.E + f ^ alpha * dur ∧
    s'.tasks = s.tasks.set i { sel with workload := sel.workload - min (f * dt) sel.workload } ∧
    s'.schedule = s.schedule ++ [⟨sel.task_id, s.t, s.t + dur, f⟩]

/-- Release times of unfinished future tasks (line 203). -/
def futureReleases (tasks : List Task) (t : ℚ) : List ℚ :=
  (tasks.filter fun task => decide (0 < task.workload) && decide (t < task.release_time)).map
    Task.release_time

/-- One iteration of the while-loop of `schedule_tasks` (lines 188-207);
`none` means the loop exits (guard `t < 1000` fails, or the `break` on
line 207 is taken). -/
def step (s : SimState) : Option SimState :=
  if s.t < horizon then
    match pickMin (readyPairs s.tasks s.t) with
    | some (i, sel) => some (execStep s i sel)
    | none =>
      match futureReleases s.tasks s.t with
      | [] => none
      | r :: rs => some { s with t := rs.foldl min r }
  else none

/-- Fuel-indexed iteration of `step`; once `step` signals loop exit the
state is returned unchanged. -/
def run : ℕ → SimState → SimState
  | 0, s => s
  | n + 1, s =>
    match step s with
    | none => s
    | some s' => run n s'

/-- Initial state of a run: `t, E, self.schedule = 0.0, 0.0, []`
(line 185). -/
def initState (tasks : List Task) : SimState :=
  { t := 0, E := 0, schedule := [], tasks := tasks }

/-- Number of tasks with work remaining. -/
def posCount (tasks : List Task) : ℕ :=
  tasks.countP fun task => decide (0 < task.workload)

/-- Number of tasks released strictly after `t`. -/
def futCount (tasks : List Task) (t : ℚ) : ℕ :=
  tasks.countP fun task => decide (t < task.release_time)

/-- Whole quanta left before the horizon. -/
def timeCount (t : ℚ) : ℕ := (⌈horizon - t⌉).toNat

/-- Termination measure of the loop: it strictly decreases at every
iteration (full quanta consume `timeCount`, partial quanta finish a task,
idle jumps consume a future release). -/
def simMeasure (s : SimState) : ℕ :=
  timeCount s.t + posCount s.tasks + futCount s.tasks s.t

/-- Fuel that provably outlasts the loop. -/
def fuelBound (tasks : List Task) : ℕ := simMeasure (initState tasks) + 1

/-- Model of `schedule_tasks` (lines 178-210): run the loop from the
initial state until it exits.  The fuel is sufficient by the termination
theorem below, so this is the exact final state of the Python loop. -/
def schedule_tasks (tasks : List Task) : SimState :=
  run (fuelBound tasks) (initState tasks)

/-- Success test of the final report (line 209): true gives the message
that all tasks completed, false the missed-deadlines message. -/
def allDone (s : SimState) : Bool :=
  s.tasks.all fun task => decide (task.workload ≤ eps)

/-- Model of `add_task` (lines 128-151): input validation, then the
feasibility check on the required frequency; `none` models the
`ValueError` paths, which surface as an input-error dialog and reject the
task.  Literals 4.0 and 1.0 are the source's own (lines 137-140). -/
def add_task (counter : ℕ) (release_time deadline workload : ℚ) : Option Task :=
  if release_time < 0 ∨ deadline ≤ release_time ∨ workload ≤ 0 then none
  else if 4 < workload / (deadline - release_time) then none
  else if workload / (deadline - release_time) < 1 then none
  else some { task_id := counter, release_time := release_time, deadline := deadline,
              workload := workload, dependencies := [] }

/-- Model of `load_tasks` (lines 153-167).  A line of the file is
`some (r, d, w)` when it parses as three comma-separated numbers and
`none` when malformed (the `ValueError` path).  The result is the task
list after the call, the task counter, and whether the file-error dialog
was shown; on the first malformed line the function returns at once,
keeping the tasks appended so far and ignoring the remaining lines. -/
def load_tasks (counter : ℕ) (tasks : List Task) :
    List (Option (ℚ × ℚ × ℚ)) → List Task × ℕ × Bool
  | [] => (tasks, counter, false)
  | none :: _ => (tasks, counter, true)
  | some (r, d, w) :: rest =>
      load_tasks (counter + 1)
        (tasks ++ [{ task_id := counter, release_time := r, deadline := d, workload := w,
                     dependencies := [] }]) rest

/-- Scenario A of the spec: one task, release 0, deadline 4, workload 8. -/
def scenarioA : List Task := [⟨1, 0, 4, 8, []⟩]

/-- Scenario C of the spec: one task, release 5, deadline 6, workload 1. -/
def scenarioC : List Task := [⟨1, 5, 6, 1, []⟩]

/-- Scenario E of the spec: two ready tasks with identical deadlines. -/
def scenarioTie : List Task := [⟨1, 0, 5, 2, []⟩, ⟨2, 0, 5, 2, []⟩]

/-- A cyclic dependency pair: neither task can ever become ready. -/
def scenarioCyc : List Task := [⟨1, 0, 5, 3, [2]⟩, ⟨2, 0, 5, 3, [1]⟩]

/-- Scenario D of the spec: task 2 depends on the unfinished task 1. -/
def scenarioDep : List Task := [⟨1, 0, 3, 2, []⟩, ⟨2, 0, 4, 2, [1]⟩]

/-! Basic lemmas about the fuelled loop. -/

theorem run_of_none {s : SimState} (h : step s = none) : ∀ n, run n s = s
  | 0 => rfl
  | n + 1 => by simp [run, h]

theorem run_succ_of_some {s s' : SimState} (h : step s = some s') (n : ℕ) :
    run (n + 1) s = run n s' := by
  simp [run, h]

theorem run_eq_of_le : ∀ {n m : ℕ} {s : SimState}, n ≤ m → step (run n s) = none →
    run m s = run n s
  | 0, m, s, _, hnone => by
      simp only [run] at hnone ⊢
      exact run_of_none hnone m
  | n + 1, m + 1, s, hle, hnone => by
      cases hs : step s with
      | none => rw [run_of_none hs, run_of_none hs]
      | some s' =>
          rw [run_succ_of_some hs] at hnone ⊢
          rw [run_succ_of_some hs]
          exact run_eq_of_le (Nat.succ_le_succ_iff.mp hle) hnone

theorem run_invariant {P : SimState → Prop}
    (hstep : ∀ s s', step s = some s' → P s → P s') :
    ∀ (n : ℕ) (s : SimState), P s → P (run n s)
  | 0, s, hP => hP
  | n + 1, s, hP => by
      cases hs : step s with
      | none => rw [run_of_none hs]; exact hP
      | some s' => rw [run_succ_of_some hs]; exact run_invariant hstep n s' (hstep s s' hs hP)

/-! Counting lemmas used by the termination measure. -/

theorem countP_set_le {α : Type} (p : α → Bool) :
    ∀ (l : List α) (i : ℕ) (a b : α), l[i]? = some a → (p b = true → p a = true) →
      (l.set i b).countP p ≤ l.countP p
  | [], i, a, b, h, _ => by simp at h
  | x :: xs, 0, a, b, h, himp => by
      simp only [List.getElem?_cons_zero, Option.some.injEq] at h
      subst h
      simp only [List.set, List.countP_cons]
      cases hb : p b with
      | true => simp [himp hb, hb]
      | false => cases hx : p x <;> simp [hb, hx]
  | x :: xs, i + 1, a, b, h, himp => by
      simp only [List.getElem?_cons_succ] at h
      simp only [List.set, List.countP_cons]
      have := countP_set_le p xs i a b h himp
      omega

theorem countP_set_lt {α : Type} (p : α → Bool) :
    ∀ (l : List α) (i : ℕ) (a b : α), l[i]? = some a → p a = true → p b = false →
      (l.set i b).countP p < l.countP p
  | [], i, a, b, h, _, _ => by simp at h
  | x :: xs, 0, a, b, h, hpa, hpb => by
      simp only [List.getElem?_cons_zero, Option.some.injEq] at h
      subst h
      simp [List.set, List.countP_cons, hpa, hpb]
  | x :: xs, i + 1, a, b, h, hpa, hpb => by
      simp only [List.getElem?_cons_succ] at h
      simp only [List.set, List.countP_cons]
      have := countP_set_lt p xs i a b h hpa hpb
      omega

theorem countP_set_congr {α : Type} (p : α → Bool) :
    ∀ (l : List α) (i : ℕ) (a b : α), l[i]? = some a → p b = p a →
      (l.set i b).countP p = l.countP p
  | [], i, a, b, h, _ => by simp at h
  | x :: xs, 0, a, b, h, hpb => by
      simp only [List.getElem?_cons_zero, Option.some.injEq] at h
      subst h
      simp [List.set, List.countP_cons, hpb]
  | x :: xs, i + 1, a, b, h, hpb => by
      simp only [List.getElem?_cons_succ] at h
      simp only [List.set, List.countP_cons]
      rw [countP_set_congr p xs i a b h hpb]

theorem countP_lt_of_witness {α : Type} {p q : α → Bool} {l : List α} {a : α}
    (hmem : a ∈ l) (hq : q a = false) (hp : p a = true)
    (himp : ∀ x ∈ l, q x = true → p x = true) : l.countP q < l.countP p := by
  induction l with
  | nil => cases hmem
  | cons x xs ih =>
      simp only [List.countP_cons]
      rcases List.mem_cons.mp hmem with rfl | hmem'
      · have h1 : List.countP q xs ≤ List.countP p xs :=
          List.countP_mono_left fun y hy => himp y (List.mem_cons_of_mem _ hy)
        simp [hq, hp]
        omega
      · have h1 := ih hmem' fun y hy => himp y (List.mem_cons_of_mem _ hy)
        have h2 : (if q x = true then 1 else 0) ≤ if p x = true then 1 else 0 := by
          cases hqx : q x with
          | false => simp
          | true => simp [himp x (List.mem_cons_self x xs) hqx]
        omega

/-! Lemmas about the left fold computing Python's builtin min. -/

theorem foldl_min_mem : ∀ (rs : List ℚ) (r : ℚ), rs.foldl min r = r ∨ rs.foldl min r ∈ rs
  | [], r => Or.inl rfl
  | x :: xs, r => by
      rcases foldl_min_mem xs (min r x) with h | h
      · rcases min_choice r x with hm | hm
        · exact Or.inl (by rw [List.foldl_cons, h, hm])
        · exact Or.inr (by rw [List.foldl_cons, h, hm]; exact List.mem_cons_self x xs)
      · exact Or.inr (List.mem_cons_of_mem x h)

theorem foldl_min_le : ∀ (rs : List ℚ) (r : ℚ),
    rs.foldl min r ≤ r ∧ ∀ x ∈ rs, rs.foldl min r ≤ x
  | [], r => ⟨le_refl r, by simp⟩
  | x :: xs, r => by
      obtain ⟨h1, h2⟩ := foldl_min_le xs (min r x)
      refine ⟨le_trans h1 (min_le_left r x), ?_⟩
      intro y hy
      rcases List.mem_cons.mp hy with rfl | hy'
      · exact le_trans h1 (min_le_right r y)
      · exact h2 y hy'

/-! The first-minimum scan: its result is minimal, and every element
strictly before it in the list has a strictly larger key. -/

theorem pickFold_spec {α : Type} (g : α → ℚ) :
    ∀ (xs : List α) (a : α),
      (∀ y ∈ xs, g (pickFold g a xs) ≤ g y) ∧ g (pickFold g a xs) ≤ g a ∧
        ((pickFold g a xs = a ∧ ∀ y ∈ xs, g a ≤ g y) ∨
          ∃ l₁ l₂, xs = l₁ ++ pickFold g a xs :: l₂ ∧ g (pickFold g a xs) < g a ∧
            ∀ y ∈ l₁, g (pickFold g a xs) < g y)
  | [], a => ⟨by simp, le_refl _, Or.inl ⟨rfl, by simp⟩⟩
  | x :: xs, a => by
      have hstep : pickFold g a (x :: xs) = pickFold g (if g x < g a then x else a) xs := rfl
      by_cases hxa : g x < g a
      · rw [if_pos hxa] at hstep
        obtain ⟨hmin, hle, hcase⟩ := pickFold_spec g xs x
        rw [hstep]
        refine ⟨?_, le_trans hle (le_of_lt hxa), ?_⟩
        · intro y hy
          rcases List.mem_cons.mp hy with rfl | hy'
          · exact hle
          · exact hmin y hy'
        · rcases hcase with ⟨heq, _⟩ | ⟨l₁, l₂, hsplit, hlt, hfirst⟩
          · right
            refine ⟨[], xs, by rw [heq]; rfl, ?_, by simp⟩
            rw [heq]; exact hxa
          · right
            refine ⟨x :: l₁, l₂, by rw [List.cons_append, ← hsplit], lt_trans hlt hxa, ?_⟩
            intro y hy
            rcases List.mem_cons.mp hy with rfl | hy'
            · exact hlt
            · exact hfirst y hy'
      · rw [if_neg hxa] at hstep
        push_neg at hxa
        obtain ⟨hmin, hle, hcase⟩ := pickFold_spec g xs a
        rw [hstep]
        refine ⟨?_, hle, ?_⟩
        · intro y hy
          rcases List.mem_cons.mp hy with rfl | hy'
          · exact le_trans hle hxa
          · exact hmin y hy'
        · rcases hcase with ⟨heq, hall⟩ | ⟨l₁, l₂, hsplit, hlt, hfirst⟩
          · left
            refine ⟨heq, ?_⟩
            intro y hy
            rcases List.mem_cons.mp hy with rfl | hy'
            · exact hxa
            · exact hall y hy'
          · right
            refine ⟨x :: l₁, l₂, by rw [List.cons_append, ← hsplit], hlt, ?_⟩
            intro y hy
            rcases List.mem_cons.mp hy with rfl | hy'
            · exact lt_of_lt_of_le hlt hxa
            · exact hfirst y hy'

theorem pickMin_spec {l : List (ℕ × Task)} {x : ℕ × Task} (h : pickMin l = some x) :
    (∀ y ∈ l, x.2.deadline ≤ y.2.deadline) ∧
      ∃ l₁ l₂, l = l₁ ++ x :: l₂ ∧ ∀ y ∈ l₁, x.2.deadline < y.2.deadline := by
  match l with
  | [] => simp [pickMin] at h
  | a :: xs =>
    have hx : pickFold (fun p => p.2.deadline) a xs = x := by
      simpa [pickMin] using h
    obtain ⟨hmin, hle, hcase⟩ := pickFold_spec (fun p => p.2.deadline) xs a
    rw [hx] at hmin hle hcase
    constructor
    · intro y hy
      rcases List.mem_cons.mp hy with rfl | hy'
      · exact hle
      · exact hmin y hy'
    · rcases hcase with ⟨heq, _⟩ | ⟨l₁, l₂, hsplit, hlt, hfirst⟩
      · exact ⟨[], xs, by rw [heq]; rfl, by simp⟩
      · refine ⟨a :: l₁, l₂, by rw [List.cons_append, ← hsplit], ?_⟩
        intro y hy
        rcases List.mem_cons.mp hy with rfl | hy'
        · exact hlt
        · exact hfirst y hy'

theorem pickMin_mem {l : List (ℕ × Task)} {x : ℕ × Task} (h : pickMin l = some x) : x ∈ l := by
  obtain ⟨-, l₁, l₂, hsplit, -⟩ := pickMin_spec h
  rw [hsplit]
  exact List.mem_append_right l₁ (List.mem_cons_self x l₂)

theorem pickMin_eq_none_iff {l : List (ℕ × Task)} : pickMin l = none ↔ l = [] := by
  cases l <;> simp [pickMin]

/-! Membership in the ready set. -/

theorem isReady_iff {tasks : List Task} {t : ℚ} {task : Task} :
    isReady tasks t task = true ↔
      task.release_time ≤ t ∧ 0 < task.workload ∧
        ∀ dep ∈ tasks, dep.task_id ∈ task.dependencies → dep.workload ≤ eps := by
  simp only [isReady, Bool.and_eq_true, decide_eq_true_eq, List.all_eq_true,
    Bool.or_eq_true, Bool.not_eq_true', and_assoc]
  refine and_congr_right fun _ => and_congr_right fun _ => forall_congr' fun dep => ?_
  refine forall_congr' fun _ => ?_
  rw [← Bool.not_eq_true, List.contains, List.elem_iff]
  tauto

theorem mem_readyPairs {tasks : List Task} {t : ℚ} {i : ℕ} {task : Task} :
    (i, task) ∈ readyPairs tasks t ↔
      tasks[i]? = some task ∧ isReady tasks t task = true := by
  simp [readyPairs, List.mem_filter, List.mk_mem_enum_iff_getElem?]

theorem mem_readyPairs' {tasks : List Task} {t : ℚ} {p : ℕ × Task}
    (h : p ∈ readyPairs tasks t) :
    tasks[p.1]? = some p.2 ∧ isReady tasks t p.2 = true := by
  obtain ⟨i, task⟩ := p
  exact mem_readyPairs.mp h

/-! Bounds on the clamped frequency. -/

theorem f_current_bounds (w sl : ℚ) : f_min ≤ f_current w sl ∧ f_current w sl ≤ f_max := by
  unfold f_current
  split
  · exact ⟨le_min (le_max_right _ _) (by norm_num [f_min, f_max]), min_le_right _ _⟩
  · exact ⟨by norm_num [f_min, f_max], le_refl _⟩

theorem f_current_pos (w sl : ℚ) : 0 < f_current w sl :=
  lt_of_lt_of_le (by norm_num [f_min]) (f_current_bounds w sl).1

/-! Shape of one loop iteration. -/

theorem step_exec {s : SimState} {i : ℕ} {sel : Task} (ht : s.t < horizon)
    (hp : pickMin (readyPairs s.tasks s.t) = some (i, sel)) :
    step s = some (execStep s i sel) := by
  simp [step, ht, hp]

theorem step_idle {s : SimState} (ht : s.t < horizon)
    (hp : pickMin (readyPairs s.tasks s.t) = none) {r : ℚ} {rs : List ℚ}
    (hf : futureReleases s.tasks s.t = r :: rs) :
    step s = some { s with t := rs.foldl min r } := by
  simp [step, ht, hp, hf]

theorem step_none_of_final {s : SimState} (hp : readyPairs s.tasks s.t = [])
    (hf : futureReleases s.tasks s.t = []) : step s = none := by
  have hp' : pickMin (readyPairs s.tasks s.t) = none := pickMin_eq_none_iff.mpr hp
  unfold step
  split
  · rw [hp', hf]
  · rfl

theorem step_cases {s s' : SimState} (h : step s = some s') :
    s.t < horizon ∧
      ((∃ i sel, pickMin (readyPairs s.tasks s.t) = some (i, sel) ∧ s' = execStep s i sel) ∨
        (pickMin (readyPairs s.tasks s.t) = none ∧ ∃ r rs,
          futureReleases s.tasks s.t = r :: rs ∧ s' = { s with t := rs.foldl min r })) := by
  unfold step at h
  split at h
  next ht =>
    refine ⟨ht, ?_⟩
    split at h
    next i sel hp =>
      left
      exact ⟨i, sel, hp, (Option.some_inj.mp h).symm⟩
    next hp =>
      right
      refine ⟨hp, ?_⟩
      split at h
      next => cases h
      next r rs hf => exact ⟨r, rs, hf, (Option.some_inj.mp h).symm⟩
  next => cases h

/-! Facts about a single execution slice. -/

theorem actual_dt_pos {s : SimState} {sel : Task} (hpos : 0 < sel.workload) :
    0 < actual_dt s sel := by
  unfold actual_dt
  split
  · norm_num [dt]
  · exact div_pos hpos (f_current_pos _ _)

theorem actual_dt_full {s : SimState} {sel : Task} (h : fcur s sel * dt ≤ sel.workload) :
    actual_dt s sel = 1 := by
  unfold actual_dt
  rw [if_pos h]
  rfl

theorem work_done_eq_workload {s : SimState} {sel : Task}
    (h : ¬ fcur s sel * dt ≤ sel.workload) : work_done s sel = sel.workload :=
  min_eq_right (le_of_lt (not_le.mp h))

/-! The termination measure strictly decreases at every loop iteration. -/

theorem timeCount_lt {t : ℚ} (ht : t < horizon) : timeCount (t + 1) < timeCount t := by
  unfold timeCount
  have h1 : ⌈horizon - (t + 1)⌉ = ⌈horizon - t⌉ - 1 := by
    rw [show horizon - (t + 1) = horizon - t - 1 by ring, Int.ceil_sub_one]
  have h2 : 0 < ⌈horizon - t⌉ := Int.ceil_pos.mpr (by linarith)
  omega

theorem timeCount_mono {t t' : ℚ} (h : t ≤ t') : timeCount t' ≤ timeCount t := by
  unfold timeCount
  have := Int.ceil_le_ceil (sub_le_sub_left h horizon)
  omega

theorem futCount_set_le {tasks : List Task} {i : ℕ} {sel sel' : Task} {t t' : ℚ}
    (hget : tasks[i]? = some sel) (hrel : sel'.release_time = sel.release_time)
    (ht : t ≤ t') : futCount (tasks.set i sel') t' ≤ futCount tasks t := by
  unfold futCount
  calc (tasks.set i sel').countP (fun task => decide (t' < task.release_time))
      = tasks.countP (fun task => decide (t' < task.release_time)) :=
        countP_set_congr _ tasks i sel sel' hget (by simp [hrel])
    _ ≤ tasks.countP (fun task => decide (t < task.release_time)) := by
        refine List.countP_mono_left fun x _ hx => ?_
        simp only [decide_eq_true_eq] at hx ⊢
        linarith

theorem simMeasure_lt {s s' : SimState} (h : step s = some s') :
    simMeasure s' < simMeasure s := by
  obtain ⟨ht, hcase⟩ := step_cases h
  rcases hcase with ⟨i, sel, hp, rfl⟩ | ⟨hp, r, rs, hf, rfl⟩
  · -- an execution slice was performed
    obtain ⟨hget, hready⟩ := mem_readyPairs.mp (pickMin_mem hp)
    obtain ⟨hrel, hpos, -⟩ := isReady_iff.mp hready
    have hdur : 0 < actual_dt s sel := actual_dt_pos hpos
    have htle : s.t ≤ s.t + actual_dt s sel := by linarith
    have hfut : futCount (execStep s i sel).tasks (execStep s i sel).t ≤
        futCount s.tasks s.t := futCount_set_le hget rfl htle
    have hposle : posCount (execStep s i sel).tasks ≤ posCount s.tasks := by
      refine countP_set_le _ s.tasks i sel _ hget fun _ => ?_
      simp [hpos]
    by_cases hfull : fcur s sel * dt ≤ sel.workload
    · have htime : timeCount (execStep s i sel).t < timeCount s.t := by
        show timeCount (s.t + actual_dt s sel) < timeCount s.t
        rw [actual_dt_full hfull]
        exact timeCount_lt ht
      simp only [simMeasure]
      omega
    · have hposlt : posCount (execStep s i sel).tasks < posCount s.tasks := by
        refine countP_set_lt _ s.tasks i sel _ hget (by simp [hpos]) ?_
        simp [work_done_eq_workload hfull]
      have htime : timeCount (execStep s i sel).t ≤ timeCount s.t := timeCount_mono htle
      simp only [simMeasure]
      omega
  · -- an idle jump was performed
    have hmem : rs.foldl min r ∈ futureReleases s.tasks s.t := by
      rcases foldl_min_mem rs r with heq | hmem'
      · rw [hf, heq]; exact List.mem_cons_self r rs
      · rw [hf]; exact List.mem_cons_of_mem r hmem'
    simp only [futureReleases, List.mem_map, List.mem_filter, Bool.and_eq_true,
      decide_eq_true_eq] at hmem
    obtain ⟨task, ⟨htask_mem, -, htask_rel⟩, htask_eq⟩ := hmem
    have htlt : s.t < rs.foldl min r := htask_eq ▸ htask_rel
    have hfut : futCount s.tasks (rs.foldl min r) < futCount s.tasks s.t := by
      unfold futCount
      refine countP_lt_of_witness htask_mem ?_ ?_ ?_
      · simp [htask_eq]
      · simp [htask_rel]
      · intro x _ hx
        simp only [decide_eq_true_eq] at hx ⊢
        linarith
    have htime : timeCount (rs.foldl min r) ≤ timeCount s.t := timeCount_mono (le_of_lt htlt)
    simp only [simMeasure]
    omega

/-! The loop halts: enough fuel reaches a state from which `step` exits. -/

theorem run_halts : ∀ (n : ℕ) (s : SimState), simMeasure s < n → step (run n s) = none
  | 0, _, hlt => absurd hlt (Nat.not_lt_zero _)
  | n + 1, s, hlt => by
      cases hs : step s with
      | none => rw [run_of_none hs]; exact hs
      | some s' =>
          rw [run_succ_of_some hs]
          exact run_halts n s' (lt_of_lt_of_le (simMeasure_lt hs) (Nat.lt_succ_iff.mp hlt))

theorem schedule_tasks_halts (tasks : List Task) : step (schedule_tasks tasks) = none :=
  run_halts _ _ (Nat.lt_succ_self _)

/-! Concrete evaluations of the spec scenarios. -/

theorem scenarioA_step0 : step (initState scenarioA) = some
    { t := 1, E := 4, schedule := [⟨1, 0, 1, 2⟩], tasks := [⟨1, 0, 4, 6, []⟩] } := by
  norm_num [step, initState, scenarioA, readyPairs, isReady, pickMin, pickFold, execStep,
    slack, fcur, actual_dt, work_done, f_current, futureReleases, eps, dt, horizon,
    f_min, f_max, alpha, List.enum, List.enumFrom, List.filter, List.all]

theorem fuelA : fuelBound scenarioA = 1002 := by
  norm_num [fuelBound, simMeasure, initState, scenarioA, timeCount, posCount, futCount,
    horizon, List.countP, List.countP.go]
  decide

theorem scenarioA_run : schedule_tasks scenarioA =
    { t := 4, E := 16,
      schedule := [⟨1, 0, 1, 2⟩, ⟨1, 1, 2, 2⟩, ⟨1, 2, 3, 2⟩, ⟨1, 3, 4, 2⟩],
      tasks := [⟨1, 0, 4, 0, []⟩] } := by
  have e1 : step
      { t := 1, E := 4, schedule := [⟨1, 0, 1, 2⟩],
        tasks := ([⟨1, 0, 4, 6, []⟩] : List Task) } = some
      { t := 2, E := 8, schedule := [⟨1, 0, 1, 2⟩, ⟨1, 1, 2, 2⟩],
        tasks := [⟨1, 0, 4, 4, []⟩] } := by
    norm_num [step, readyPairs, isReady, pickMin, pickFold, execStep, slack, fcur,
      actual_dt, work_done, f_current, futureReleases, eps, dt, horizon, f_min, f_max,
      alpha, List.enum, List.enumFrom, List.filter, List.all]
  have e2 : step
      { t := 2, E := 8, schedule := [⟨1, 0, 1, 2⟩, ⟨1, 1, 2, 2⟩],
        tasks := ([⟨1, 0, 4, 4, []⟩] : List Task) } = some
      { t := 3, E := 12, schedule := [⟨1, 0, 1, 2⟩, ⟨1, 1, 2, 2⟩, ⟨1, 2, 3, 2⟩],
        tasks := [⟨1, 0, 4, 2, []⟩] } := by
    norm_num [step, readyPairs, isReady, pickMin, pickFold, execStep, slack, fcur,
      actual_dt, work_done, f_current, futureReleases, eps, dt, horizon, f_min, f_max,
      alpha, List.enum, List.enumFrom, List.filter, List.all]
  have e3 : step
      { t := 3, E := 12, schedule := [⟨1, 0, 1, 2⟩, ⟨1, 1, 2, 2⟩, ⟨1, 2, 3, 2⟩],
        tasks := ([⟨1, 0, 4, 2, []⟩] : List Task) } = some
      { t := 4, E := 16,
        schedule := [⟨1, 0, 1, 2⟩, ⟨1, 1, 2, 2⟩, ⟨1, 2, 3, 2⟩, ⟨1, 3, 4, 2⟩],
        tasks := [⟨1, 0, 4, 0, []⟩] } := by
    norm_num [step, readyPairs, isReady, pickMin, pickFold, execStep, slack, fcur,
      actual_dt, work_done, f_current, futureReleases, eps, dt, horizon, f_min, f_max,
      alpha, List.enum, List.enumFrom, List.filter, List.all]
  have e4 : step
      { t := 4, E := 16,
        schedule := [⟨1, 0, 1, 2⟩, ⟨1, 1, 2, 2⟩, ⟨1, 2, 3, 2⟩, ⟨1, 3, 4, 2⟩],
        tasks := ([⟨1, 0, 4, 0, []⟩] : List Task) } = none := by
    norm_num [step, readyPairs, isReady, pickMin, pickFold, execStep, slack, fcur,
      actual_dt, work_done, f_current, futureReleases, eps, dt, horizon, f_min, f_max,
      alpha, List.enum, List.enumFrom, List.filter, List.all]
  rw [schedule_tasks, fuelA]
  rw [show (1002:ℕ) = 1001 + 1 from rfl, run_succ_of_some scenarioA_step0]
  rw [show (1001:ℕ) = 1000 + 1 from rfl, run_succ_of_some e1]
  rw [show (1000:ℕ) = 999 + 1 from rfl, run_succ_of_some e2]
  rw [show (999:ℕ) = 998 + 1 from rfl, run_succ_of_some e3]
  rw [run_of_none e4]


theorem fuelC : fuelBound scenarioC = 1003 := by
  norm_num [fuelBound, simMeasure, initState, scenarioC, timeCount, posCount, futCount,
    horizon, List.countP, List.countP.go]
  decide

theorem scenarioC_step0 : step (initState scenarioC) = some
    { t := 5, E := 0, schedule := [], tasks := scenarioC } := by
  norm_num [step, initState, scenarioC, readyPairs, isReady, pickMin, pickFold, execStep,
    slack, fcur, actual_dt, work_done, f_current, futureReleases, eps, dt, horizon,
    f_min, f_max, alpha, List.enum, List.enumFrom, List.filter, List.all]

theorem scenarioC_run : schedule_tasks scenarioC =
    { t := 6, E := 1, schedule := [⟨1, 5, 6, 1⟩], tasks := [⟨1, 5, 6, 0, []⟩] } := by
  have e1 : step
      { t := 5, E := 0, schedule := ([] : List ScheduleEntry), tasks := scenarioC } = some
      { t := 6, E := 1, schedule := [⟨1, 5, 6, 1⟩], tasks := [⟨1, 5, 6, 0, []⟩] } := by
    norm_num [step, scenarioC, readyPairs, isReady, pickMin, pickFold, execStep,
      slack, fcur, actual_dt, work_done, f_current, futureReleases, eps, dt, horizon,
      f_min, f_max, alpha, List.enum, List.enumFrom, List.filter, List.all]
  have e2 : step
      { t := 6, E := 1, schedule := [⟨1, 5, 6, 1⟩],
        tasks := ([⟨1, 5, 6, 0, []⟩] : List Task) } = none := by
    norm_num [step, readyPairs, isReady, pickMin, pickFold, execStep,
      slack, fcur, actual_dt, work_done, f_current, futureReleases, eps, dt, horizon,
      f_min, f_max, alpha, List.enum, List.enumFrom, List.filter, List.all]
  rw [schedule_tasks, fuelC]
  rw [show (1003:ℕ) = 1002 + 1 from rfl, run_succ_of_some scenarioC_step0]
  rw [show (1002:ℕ) = 1001 + 1 from rfl, run_succ_of_some e1]
  rw [run_of_none e2]

theorem scenarioTie_pick :
    pickMin (readyPairs scenarioTie 0) = some (0, ⟨1, 0, 5, 2, []⟩) := by
  norm_num [scenarioTie, readyPairs, isReady, pickMin, pickFold, eps,
    List.enum, List.enumFrom, List.filter, List.all]

theorem scenarioTie_step0 : step (initState scenarioTie) = some
    { t := 1, E := 1, schedule := [⟨1, 0, 1, 1⟩],
      tasks := [⟨1, 0, 5, 1, []⟩, ⟨2, 0, 5, 2, []⟩] } := by
  norm_num [step, initState, scenarioTie, readyPairs, isReady, pickMin, pickFold, execStep,
    slack, fcur, actual_dt, work_done, f_current, futureReleases, eps, dt, horizon,
    f_min, f_max, alpha, List.enum, List.enumFrom, List.filter, List.all]

theorem scenarioA_pick :
    pickMin (readyPairs scenarioA 0) = some (0, ⟨1, 0, 4, 8, []⟩) := by
  norm_num [scenarioA, readyPairs, isReady, pickMin, pickFold, eps,
    List.enum, List.enumFrom, List.filter, List.all]

theorem scenarioCyc_ready : readyPairs scenarioCyc 0 = [] := by
  norm_num [scenarioCyc, readyPairs, isReady, eps,
    List.enum, List.enumFrom, List.filter, List.all]

theorem scenarioCyc_future : futureReleases scenarioCyc 0 = [] := by
  norm_num [scenarioCyc, futureReleases, List.filter]

theorem scenarioCyc_notDone : allDone (initState scenarioCyc) = false := by
  norm_num [allDone, initState, scenarioCyc, eps, List.all]

theorem scenarioC_ready : readyPairs scenarioC 0 = [] := by
  norm_num [scenarioC, readyPairs, isReady, eps,
    List.enum, List.enumFrom, List.filter, List.all]

/-! Theorems settling the claims. -/

/-- C1 counterexample: on Scenario A (task 1, release 0, deadline 4,
workload 8, default parameters) the scheduler does not produce exactly
one schedule entry: the quantized loop emits four one-quantum entries. -/
theorem C1_counterexample :
    (schedule_tasks scenarioA).schedule.length = 4 ∧
      ¬ (schedule_tasks scenarioA).schedule.length = 1 := by
  rw [scenarioA_run]
  simp

/-- C1 (amended): on Scenario A the scheduler produces four contiguous
entries [0,1], [1,2], [2,3], [3,4], each at frequency 2, jointly covering
[0,4], with total energy 16, and the run is reported as DONE. -/
theorem C1_amended :
    (schedule_tasks scenarioA).schedule =
      [⟨1, 0, 1, 2⟩, ⟨1, 1, 2, 2⟩, ⟨1, 2, 3, 2⟩, ⟨1, 3, 4, 2⟩] ∧
    (schedule_tasks scenarioA).E = 16 ∧
    allDone (schedule_tasks scenarioA) = true := by
  rw [scenarioA_run]
  refine ⟨rfl, rfl, ?_⟩
  norm_num [allDone, eps, List.all]

/-- C2: at every execution step the loop behaves exactly as the spec's
frequency/energy model states: frequency clamped from workload/slack (or
`f_max` when slack is nonpositive), duration `dt` or `workload/frequency`,
work `min(frequency*dt, workload)` subtracted, and energy
`frequency^alpha * duration` (with the frequency, not `f_max`, in the
exponentiation) added. -/
theorem C2_slice_model (s : SimState) (i : ℕ) (sel : Task) (ht : s.t < horizon)
    (hp : pickMin (readyPairs s.tasks s.t) = some (i, sel)) :
    step s = some (execStep s i sel) ∧ SliceSpec s i sel (execStep s i sel) := by
  refine ⟨step_exec ht hp, ?_⟩
  unfold SliceSpec
  refine ⟨fcur s sel, actual_dt s sel, ?_, ?_, rfl, rfl, rfl, rfl, rfl⟩
  · intro h
    unfold fcur f_current slack
    rw [if_pos h]
  · intro h
    unfold fcur f_current slack
    rw [if_neg (not_lt.mpr h)]

/-- C2 witness: the model instantiated on the first step of Scenario A. -/
theorem C2_witness :
    (initState scenarioA).t < horizon ∧
    step (initState scenarioA) = some (execStep (initState scenarioA) 0 ⟨1, 0, 4, 8, []⟩) ∧
    SliceSpec (initState scenarioA) 0 ⟨1, 0, 4, 8, []⟩
      (execStep (initState scenarioA) 0 ⟨1, 0, 4, 8, []⟩) := by
  have ht : (initState scenarioA).t < horizon := by norm_num [initState, horizon]
  obtain ⟨h1, h2⟩ := C2_slice_model (initState scenarioA) 0 ⟨1, 0, 4, 8, []⟩ ht scenarioA_pick
  exact ⟨ht, h1, h2⟩

/-- C3: at every decision point the selected task is a ready task with the
smallest deadline, and every ready task strictly before it in input order
has a strictly larger deadline (first-minimum tie-break); in particular on
two identical-deadline tasks both ready at t = 0 the one first in input
order (id 1) is selected and runs first.  Selection is a pure function of
the state, hence deterministic across repeated runs. -/
theorem C3_edf_selection :
    (∀ (tasks : List Task) (t : ℚ) (i : ℕ) (sel : Task),
      pickMin (readyPairs tasks t) = some (i, sel) →
        (i, sel) ∈ readyPairs tasks t ∧
        (∀ p ∈ readyPairs tasks t, sel.deadline ≤ p.2.deadline) ∧
        ∃ l₁ l₂, readyPairs tasks t = l₁ ++ (i, sel) :: l₂ ∧
          ∀ p ∈ l₁, sel.deadline < p.2.deadline) ∧
    pickMin (readyPairs scenarioTie 0) = some (0, ⟨1, 0, 5, 2, []⟩) ∧
    (step (initState scenarioTie)).map SimState.schedule = some [⟨1, 0, 1, 1⟩] := by
  refine ⟨?_, scenarioTie_pick, ?_⟩
  · intro tasks t i sel hp
    obtain ⟨hmin, l₁, l₂, hsplit, hfirst⟩ := pickMin_spec hp
    exact ⟨pickMin_mem hp, hmin, l₁, l₂, hsplit, hfirst⟩
  · rw [scenarioTie_step0]
    rfl

/-- C3 witness: the selection property instantiated on the tie scenario. -/
theorem C3_witness :
    pickMin (readyPairs scenarioTie 0) = some (0, ⟨1, 0, 5, 2, []⟩) ∧
    ((0, (⟨1, 0, 5, 2, []⟩ : Task)) ∈ readyPairs scenarioTie 0 ∧
      (∀ p ∈ readyPairs scenarioTie 0, (⟨1, 0, 5, 2, []⟩ : Task).deadline ≤ p.2.deadline) ∧
      ∃ l₁ l₂, readyPairs scenarioTie 0 = l₁ ++ (0, ⟨1, 0, 5, 2, []⟩) :: l₂ ∧
        ∀ p ∈ l₁, (⟨1, 0, 5, 2, []⟩ : Task).deadline < p.2.deadline) :=
  ⟨scenarioTie_pick,
    C3_edf_selection.1 scenarioTie 0 0 ⟨1, 0, 5, 2, []⟩ scenarioTie_pick⟩

/-- C4: a task is in the ready set exactly when it is released, has work
remaining, and all its listed dependency tasks are finished to within
1e-6; a task with an unfinished dependency never appears in the ready set,
whatever its deadline. -/
theorem C4_ready_characterization :
    (∀ (tasks : List Task) (t : ℚ) (i : ℕ) (task : Task),
      (i, task) ∈ readyPairs tasks t ↔
        tasks[i]? = some task ∧ task.release_time ≤ t ∧ 0 < task.workload ∧
          ∀ dep ∈ tasks, dep.task_id ∈ task.dependencies → dep.workload ≤ eps) ∧
    (∀ (tasks : List Task) (t : ℚ) (task dep : Task), dep ∈ tasks →
      dep.task_id ∈ task.dependencies → eps < dep.workload →
      ∀ i : ℕ, (i, task) ∉ readyPairs tasks t) := by
  have h1 : ∀ (tasks : List Task) (t : ℚ) (i : ℕ) (task : Task),
      (i, task) ∈ readyPairs tasks t ↔
        tasks[i]? = some task ∧ task.release_time ≤ t ∧ 0 < task.workload ∧
          ∀ dep ∈ tasks, dep.task_id ∈ task.dependencies → dep.workload ≤ eps := by
    intro tasks t i task
    rw [mem_readyPairs, isReady_iff]
  refine ⟨h1, ?_⟩
  intro tasks t task dep hdep hid hlt i hmem
  obtain ⟨-, -, -, hdeps⟩ := (h1 tasks t i task).mp hmem
  exact absurd (hdeps dep hdep hid) (not_le.mpr hlt)

/-- C4 witness: dependency gating on Scenario D at t = 0: task 2 is not
ready while task 1 has workload 2 > 1e-6. -/
theorem C4_witness :
    (⟨1, 0, 3, 2, []⟩ : Task) ∈ scenarioDep ∧
    (1 : ℕ) ∈ (⟨2, 0, 4, 2, [1]⟩ : Task).dependencies ∧
    eps < (⟨1, 0, 3, 2, []⟩ : Task).workload ∧
    (1, (⟨2, 0, 4, 2, [1]⟩ : Task)) ∉ readyPairs scenarioDep 0 :=
  ⟨by simp [scenarioDep], by simp, by norm_num [eps],
    C4_ready_characterization.2 scenarioDep 0 ⟨2, 0, 4, 2, [1]⟩ ⟨1, 0, 3, 2, []⟩
      (by simp [scenarioDep]) (by simp) (by norm_num [eps]) 1⟩

/-- C5: the loop halts on every finite task set (the fuel of
`schedule_tasks` provably outlasts it: one more iteration exits, and any
larger fuel gives the same final state); when the ready set is empty and
no unfinished task has a future release it halts at once; and whenever
some task retains workload above 1e-6 the report is the missed-deadlines
message, not success. -/
theorem C5_termination_and_deadlock :
    (∀ tasks : List Task, step (schedule_tasks tasks) = none ∧
      ∀ m : ℕ, fuelBound tasks ≤ m → run m (initState tasks) = schedule_tasks tasks) ∧
    (∀ s : SimState, readyPairs s.tasks s.t = [] → futureReleases s.tasks s.t = [] →
      step s = none) ∧
    (∀ s : SimState, ∀ task ∈ s.tasks, eps < task.workload → allDone s = false) := by
  refine ⟨fun tasks => ⟨schedule_tasks_halts tasks,
    fun m hm => run_eq_of_le hm (schedule_tasks_halts tasks)⟩,
    fun s hr hf => step_none_of_final hr hf, fun s task htask hlt => ?_⟩
  rcases hall : allDone s with _ | _
  · rfl
  · have := List.all_eq_true.mp hall task htask
    simp only [decide_eq_true_eq] at this
    linarith

/-- C5 witness: on a cyclic-dependency pair the loop halts immediately
(structural deadlock) and the run is reported as missed deadlines. -/
theorem C5_witness :
    step (schedule_tasks scenarioCyc) = none ∧
    run (fuelBound scenarioCyc + 7) (initState scenarioCyc) = schedule_tasks scenarioCyc ∧
    step (initState scenarioCyc) = none ∧
    allDone (initState scenarioCyc) = false :=
  ⟨(C5_termination_and_deadlock.1 scenarioCyc).1,
    (C5_termination_and_deadlock.1 scenarioCyc).2 _ (Nat.le_add_right _ 7),
    C5_termination_and_deadlock.2.1 (initState scenarioCyc) scenarioCyc_ready scenarioCyc_future,
    C5_termination_and_deadlock.2.2 (initState scenarioCyc) ⟨1, 0, 5, 3, [2]⟩
      (by simp [initState, scenarioCyc]) (by norm_num [eps])⟩

/-- C6: with an empty ready set and some unfinished task released in the
future, one step jumps the clock to the smallest such release time,
appending no schedule entry and accumulating no energy; on Scenario C the
clock jumps from 0 straight to 5 and the final schedule is the single
entry [5,6] at frequency 1. -/
theorem C6_idle_jump :
    (∀ (s : SimState) (task : Task), s.t < horizon →
      readyPairs s.tasks s.t = [] → task ∈ s.tasks → 0 < task.workload →
      s.t < task.release_time →
      ∃ s', step s = some s' ∧ s'.schedule = s.schedule ∧ s'.E = s.E ∧
        s'.tasks = s.tasks ∧ s'.t ∈ futureReleases s.tasks s.t ∧
        ∀ r ∈ futureReleases s.tasks s.t, s'.t ≤ r) ∧
    step (initState scenarioC) = some { t := 5, E := 0, schedule := [], tasks := scenarioC } ∧
    (schedule_tasks scenarioC).schedule = [⟨1, 5, 6, 1⟩] := by
  refine ⟨?_, scenarioC_step0, by rw [scenarioC_run]⟩
  intro s task ht hready htask hpos hrel
  have hmemF : task.release_time ∈ futureReleases s.tasks s.t := by
    simp only [futureReleases, List.mem_map, List.mem_filter, Bool.and_eq_true,
      decide_eq_true_eq]
    exact ⟨task, ⟨htask, hpos, hrel⟩, rfl⟩
  obtain ⟨r, rs, hf⟩ := List.exists_cons_of_ne_nil (List.ne_nil_of_mem hmemF)
  refine ⟨{ s with t := rs.foldl min r },
    step_idle ht (pickMin_eq_none_iff.mpr hready) hf, rfl, rfl, rfl, ?_, ?_⟩
  · rw [hf]
    rcases foldl_min_mem rs r with heq | hmem'
    · rw [heq]; exact List.mem_cons_self r rs
    · exact List.mem_cons_of_mem r hmem'
  · intro x hx
    rw [hf] at hx
    rcases List.mem_cons.mp hx with rfl | hx'
    · exact (foldl_min_le rs x).1
    · exact (foldl_min_le rs r).2 x hx'

/-- C6 witness: the idle jump instantiated on Scenario C at t = 0. -/
theorem C6_witness :
    (initState scenarioC).t < horizon ∧
    readyPairs (initState scenarioC).tasks (initState scenarioC).t = [] ∧
    (∃ s', step (initState scenarioC) = some s' ∧
      s'.schedule = (initState scenarioC).schedule ∧ s'.E = (initState scenarioC).E ∧
      s'.tasks = (initState scenarioC).tasks ∧
      s'.t ∈ futureReleases (initState scenarioC).tasks (initState scenarioC).t ∧
      ∀ r ∈ futureReleases (initState scenarioC).tasks (initState scenarioC).t, s'.t ≤ r) :=
  ⟨by norm_num [initState, horizon], scenarioC_ready,
    C6_idle_jump.1 (initState scenarioC) ⟨1, 5, 6, 1, []⟩ (by norm_num [initState, horizon])
      scenarioC_ready (by simp [initState, scenarioC]) (by norm_num) (by norm_num [initState])⟩

/-- C7 counterexample: a well-formed line followed by a malformed one
leaves the task from the earlier line loaded (together with the error
flag), so a partially-loaded task list is accepted, contrary to the
claim. -/
theorem C7_counterexample :
    load_tasks 1 [] [some (0, 1, 1), none] =
      ([{ task_id := 1, release_time := 0, deadline := 1, workload := 1,
          dependencies := [] }], 2, true) ∧
    (load_tasks 1 [] [some (0, 1, 1), none]).1 ≠ [] := by
  constructor
  · rfl
  · simp [load_tasks]

/-- C7 (amended): the first malformed line makes the loader stop with a
file error; the lines after it (well-formed or not) are ignored, but the
tasks built from the well-formed lines before it remain loaded. -/
theorem C7_amended (good : List (ℚ × ℚ × ℚ)) (rest : List (Option (ℚ × ℚ × ℚ)))
    (c : ℕ) (tasks : List Task) :
    (load_tasks c tasks (good.map some ++ none :: rest)).2.2 = true ∧
    load_tasks c tasks (good.map some ++ none :: rest) =
      ((load_tasks c tasks (good.map some)).1,
        (load_tasks c tasks (good.map some)).2.1, true) := by
  induction good generalizing c tasks with
  | nil => exact ⟨rfl, rfl⟩
  | cons hd tl ih =>
      obtain ⟨r, d, w⟩ := hd
      simp only [List.map_cons, List.cons_append, load_tasks]
      exact ih (c + 1) (tasks ++ [⟨c, r, d, w, []⟩])

/-- C8 counterexample: the scheduler's construction path does throw for a
too-tight task: `add_task` with release 0, deadline 2, workload 20
(required frequency 10 > 4) is rejected with an input error. -/
theorem C8_counterexample : add_task 1 0 2 20 = none := by
  norm_num [add_task]

/-- C8 (amended): during a run no failure is possible — the computed
frequency always saturates into the band [f_min, f_max], whatever the
workload-to-slack ratio — but at interactive construction `add_task`
rejects as an input error any task whose overall required frequency
`workload / (deadline - release_time)` exceeds `f_max` or falls below
`f_min` (the file loader performs no such check). -/
theorem C8_amended :
    (∀ w sl : ℚ, f_min ≤ f_current w sl ∧ f_current w sl ≤ f_max) ∧
    (∀ (c : ℕ) (r d w : ℚ), 0 ≤ r → r < d → 0 < w → f_max < w / (d - r) →
      add_task c r d w = none) ∧
    (∀ (c : ℕ) (r d w : ℚ), 0 ≤ r → r < d → 0 < w → w / (d - r) < f_min →
      add_task c r d w = none) := by
  refine ⟨f_current_bounds, ?_, ?_⟩
  · intro c r d w h0 hrd hw hratio
    rw [show f_max = 4 from rfl] at hratio
    unfold add_task
    rw [if_neg (by push_neg; exact ⟨h0, hrd, hw⟩), if_pos hratio]
  · intro c r d w h0 hrd hw hratio
    rw [show f_min = 1 from rfl] at hratio
    unfold add_task
    rw [if_neg (by push_neg; exact ⟨h0, hrd, hw⟩), if_neg (by linarith), if_pos hratio]

/-- C8 witness: the saturation bound at slack 0 and the two rejection
paths of add_task at their concrete boundary violations. -/
theorem C8_witness :
    (f_min ≤ f_current 8 0 ∧ f_current 8 0 ≤ f_max) ∧
    ((0:ℚ) ≤ 0 ∧ (0:ℚ) < 2 ∧ (0:ℚ) < 20 ∧ f_max < 20 / (2 - 0)) ∧
    add_task 1 0 2 20 = none ∧
    ((0:ℚ) ≤ 0 ∧ (0:ℚ) < 2 ∧ (0:ℚ) < 1 ∧ 1 / (2 - 0) < f_min) ∧
    add_task 2 0 2 1 = none :=
  ⟨C8_amended.1 8 0,
    ⟨le_refl 0, by norm_num, by norm_num, by norm_num [f_max]⟩,
    C8_amended.2.1 1 0 2 20 (le_refl 0) (by norm_num) (by norm_num) (by norm_num [f_max]),
    ⟨le_refl 0, by norm_num, by norm_num, by norm_num [f_min]⟩,
    C8_amended.2.2 2 0 2 1 (le_refl 0) (by norm_num) (by norm_num) (by norm_num [f_min])⟩

/-! Per-step workload facts used by C9. -/

theorem work_done_le (s : SimState) (sel : Task) : work_done s sel ≤ sel.workload :=
  min_le_right _ _

theorem work_done_nonneg (s : SimState) (sel : Task) (h : 0 ≤ sel.workload) :
    0 ≤ work_done s sel :=
  le_min (mul_nonneg (le_of_lt (f_current_pos _ _)) (by norm_num [dt])) h

theorem step_workload_mono {s s' : SimState} (h : step s = some s') :
    ∀ (i : ℕ) (a b : Task), s.tasks[i]? = some a → s'.tasks[i]? = some b →
      b.workload ≤ a.workload ∧ (0 ≤ a.workload → 0 ≤ b.workload) := by
  obtain ⟨ht, hcase⟩ := step_cases h
  rcases hcase with ⟨j, sel, hp, rfl⟩ | ⟨-, r, rs, -, rfl⟩
  · intro i a b ha hb
    obtain ⟨hgetj, hready⟩ := mem_readyPairs.mp (pickMin_mem hp)
    obtain ⟨-, hpos, -⟩ := isReady_iff.mp hready
    by_cases hij : j = i
    · subst hij
      have ha' : a = sel := Option.some_inj.mp (ha.symm.trans hgetj)
      have hlen : j < s.tasks.length := by
        by_contra hge
        rw [List.getElem?_eq_none (le_of_not_lt hge)] at hgetj
        cases hgetj
      have hb' : b = { sel with workload := sel.workload - work_done s sel } := by
        rw [show (execStep s j sel).tasks = s.tasks.set j
            { sel with workload := sel.workload - work_done s sel } from rfl,
          List.getElem?_set, if_pos rfl, if_pos hlen] at hb
        exact (Option.some_inj.mp hb).symm
      rw [ha', hb']
      exact ⟨sub_le_self _ (work_done_nonneg s sel (le_of_lt hpos)),
        fun _ => sub_nonneg.mpr (work_done_le s sel)⟩
    · have hb' : s.tasks[i]? = some b := by
        rw [show (execStep s j sel).tasks = s.tasks.set j
            { sel with workload := sel.workload - work_done s sel } from rfl,
          List.getElem?_set, if_neg hij] at hb
        exact hb
      have : b = a := Option.some_inj.mp (hb'.symm.trans ha)
      subst this
      exact ⟨le_refl _, id⟩
  · intro i a b ha hb
    have : b = a := Option.some_inj.mp ((ha.symm.trans hb).symm)
    subst this
    exact ⟨le_refl _, id⟩

theorem step_tasks_nonneg {s s' : SimState} (h : step s = some s')
    (hP : ∀ task ∈ s.tasks, 0 ≤ task.workload) :
    ∀ task ∈ s'.tasks, 0 ≤ task.workload := by
  obtain ⟨ht, hcase⟩ := step_cases h
  rcases hcase with ⟨j, sel, hp, rfl⟩ | ⟨-, r, rs, -, rfl⟩
  · intro task htask
    rcases List.mem_or_eq_of_mem_set htask with hmem | rfl
    · exact hP task hmem
    · exact sub_nonneg.mpr (work_done_le s sel)
  · exact hP

/-- C9: over one loop iteration every task's remaining workload is
non-increasing, and non-negativity is preserved (the work subtracted never
exceeds the remaining workload); hence over a whole run from non-negative
workloads every workload stays non-negative.  The run operates on its own
state, leaving the input task list untouched. -/
theorem C9_workload_monotone :
    (∀ (s s' : SimState), step s = some s' →
      ∀ (i : ℕ) (a b : Task), s.tasks[i]? = some a → s'.tasks[i]? = some b →
        b.workload ≤ a.workload ∧ (0 ≤ a.workload → 0 ≤ b.workload)) ∧
    (∀ tasks : List Task, (∀ task ∈ tasks, 0 ≤ task.workload) →
      ∀ task ∈ (schedule_tasks tasks).tasks, 0 ≤ task.workload) :=
  ⟨fun _ _ h => step_workload_mono h,
    fun _ h0 => run_invariant (fun _ _ hs hP => step_tasks_nonneg hs hP) _ _ h0⟩

/-- C9 witness: the monotonicity instantiated on the first step of
Scenario A (workload 8 becomes 6) and on its whole run. -/
theorem C9_witness :
    (initState scenarioA).tasks[0]? = some ⟨1, 0, 4, 8, []⟩ ∧
    ((⟨1, 0, 4, 6, []⟩ : Task).workload ≤ (⟨1, 0, 4, 8, []⟩ : Task).workload ∧
      (0 ≤ (⟨1, 0, 4, 8, []⟩ : Task).workload → 0 ≤ (⟨1, 0, 4, 6, []⟩ : Task).workload)) ∧
    (∀ task ∈ (schedule_tasks scenarioA).tasks, 0 ≤ task.workload) :=
  ⟨rfl,
    C9_workload_monotone.1 _ _ scenarioA_step0 0 ⟨1, 0, 4, 8, []⟩ ⟨1, 0, 4, 6, []⟩ rfl rfl,
    C9_workload_monotone.2 scenarioA (by norm_num [scenarioA])⟩

/-- C10: every schedule entry of any run has its frequency inside
[f_min, f_max] = [1, 4] and strictly positive duration. -/
theorem C10_entry_invariants (tasks : List Task) :
    ∀ e ∈ (schedule_tasks tasks).schedule,
      f_min ≤ e.frequency ∧ e.frequency ≤ f_max ∧ e.start_time < e.end_time := by
  have hstep : ∀ s s', step s = some s' →
      (∀ e ∈ s.schedule,
        f_min ≤ e.frequency ∧ e.frequency ≤ f_max ∧ e.start_time < e.end_time) →
      ∀ e ∈ s'.schedule,
        f_min ≤ e.frequency ∧ e.frequency ≤ f_max ∧ e.start_time < e.end_time := by
    intro s s' h hP
    obtain ⟨ht, hcase⟩ := step_cases h
    rcases hcase with ⟨j, sel, hp, rfl⟩ | ⟨-, r, rs, -, rfl⟩
    · intro e he
      rw [show (execStep s j sel).schedule = s.schedule ++
          [⟨sel.task_id, s.t, s.t + actual_dt s sel, fcur s sel⟩] from rfl] at he
      rcases List.mem_append.mp he with he' | he'
      · exact hP e he'
      · obtain ⟨-, hready⟩ := mem_readyPairs.mp (pickMin_mem hp)
        obtain ⟨-, hpos, -⟩ := isReady_iff.mp hready
        rw [List.mem_singleton] at he'
        subst he'
        refine ⟨(f_current_bounds _ _).1, (f_current_bounds _ _).2, ?_⟩
        have := @actual_dt_pos s sel hpos
        show s.t < s.t + actual_dt s sel
        linarith
    · exact hP
  exact run_invariant hstep _ _ (by simp [initState])

/-- C10 witness: the invariant instantiated on the first entry of the
Scenario A schedule. -/
theorem C10_witness :
    (⟨1, 0, 1, 2⟩ : ScheduleEntry) ∈ (schedule_tasks scenarioA).schedule ∧
    (f_min ≤ (⟨1, 0, 1, 2⟩ : ScheduleEntry).frequency ∧
      (⟨1, 0, 1, 2⟩ : ScheduleEntry).frequency ≤ f_max ∧
      (⟨1, 0, 1, 2⟩ : ScheduleEntry).start_time < (⟨1, 0, 1, 2⟩ : ScheduleEntry).end_time) := by
  have hmem : (⟨1, 0, 1, 2⟩ : ScheduleEntry) ∈ (schedule_tasks scenarioA).schedule := by
    rw [scenarioA_run]
    simp
  exact ⟨hmem, C10_entry_invariants scenarioA _ hmem⟩

end GreenSched
